import Mathlib

/-!
Shallow embedding of `runtime/vm/compiler/assembler/assembler.cc`:
the assembler buffer with its fixup chain, and the object pool wrapper
with its dedup index.  Machine integers (`intptr_t`, `uword`) are
modelled as `Int`, with explicit 64-bit wrap-around where the source's
arithmetic can overflow.
-/

namespace AssemblerSpec

/-- Patchability of a pool entry (`ObjectPool::Patchability`). -/
inductive Patchability
| kPatchable
| kNotPatchable
deriving DecidableEq

/-- Kind of a pool entry (`ObjectPool::EntryType`). -/
inductive EntryType
| kTaggedObject
| kImmediate
| kNativeFunction
| kNativeFunctionWrapper
deriving DecidableEq

/-- Model of a managed `Object` reference, carrying exactly the
observations `ObjIndexPair::Hashcode` makes of it.  The class predicates
(`IsNull`, `IsString`, `IsNumber`, `IsCode`, `IsFunction`, `IsField`) are
mutually exclusive — an object belongs to one class — so the if-chain of
the source corresponds to a match on this inductive. -/
inductive Obj
| null
| str (canonicalizeHash : Int)
| number (canonicalizeHash : Int)
| code (payloadStart : Int)
| fn (hash : Int)
| fieldRef (nameHash : Int)
| other (classId : Int)
deriving DecidableEq

/-- Entry of the wrapper (`ObjectPoolWrapperEntry`): `obj_` is meaningful only for
`kTaggedObject`, `raw_value_` only for the other kinds; `equivalence_`
is an optional handle (`NULL` in the source is `none` here). -/
structure ObjectPoolWrapperEntry where
  type : EntryType
  patchable : Patchability
  obj : Obj := Obj.null
  equivalence : Option Obj := none
  raw_value : Int := 0
deriving DecidableEq

namespace ObjIndexPair

/-- Dedup hash (`ObjIndexPair::Hashcode`, assembler.cc lines 230-252): raw word for
non-reference kinds, then the tiered hash over the referenced object. -/
def Hashcode (key : ObjectPoolWrapperEntry) : Int :=
  if key.type ≠ EntryType.kTaggedObject then
    key.raw_value
  else
    match key.obj with
    | Obj.null => 2011
    | Obj.str h => h
    | Obj.number h => h
    | Obj.code payloadStart => payloadStart
    | Obj.fn h => h
    | Obj.fieldRef nameHash => nameHash
    | Obj.other classId => classId

end ObjIndexPair

/-- Modelled from the spec: the normalized dedup-index key.  The key
construction of `ObjIndexPair` and `IsKeyEqual` are declared in
`assembler.h`, which is not part of this snapshot; per the spec the
index maps a key derived from the entry — for tagged entries the
identity of the equivalence value when one was supplied, otherwise the
object itself; for the other kinds the raw word (and its kind). -/
inductive DedupKey
| tagged (o : Obj)
| untagged (t : EntryType) (v : Int)
deriving DecidableEq

/-- Modelled from the spec: derive the dedup key from an entry. -/
def dedupKey (e : ObjectPoolWrapperEntry) : DedupKey :=
  if e.type = EntryType.kTaggedObject then
    DedupKey.tagged (e.equivalence.getD e.obj)
  else
    DedupKey.untagged e.type e.raw_value

/-- State of `ObjectPoolWrapper`: the growable entry list and the dedup
index (`object_pool_index_table_`), modelled as an association list with
the most recent insertion first. -/
structure ObjectPoolWrapper where
  object_pool : List ObjectPoolWrapperEntry
  object_pool_index_table : List (DedupKey × Nat)
deriving DecidableEq

/-- A freshly constructed wrapper: empty pool, empty index. -/
def ObjectPoolWrapper.init : ObjectPoolWrapper := ⟨[], []⟩

/-- Modelled from the spec: `DirectChainedHashMap::LookupValue` over the
dedup index — the stored index for an equal key, `kNoIndex` (here
`none`) on a miss. -/
def LookupValue (t : List (DedupKey × Nat)) (k : DedupKey) : Option Nat :=
  (t.find? (fun p => decide (p.1 = k))).map (fun p => p.2)

/-- Append (`ObjectPoolWrapper::AddObject`, lines 305-330): append the entry,
and for `kNotPatchable` entries record `(key, index)` in the dedup
index.  The `ZoneHandle` re-wrapping of tagged entries copies the handle
into the wrapper's zone; it preserves the referenced value, which is
what this value-level model stores, so it is the identity here. -/
def AddObject (w : ObjectPoolWrapper) (entry : ObjectPoolWrapperEntry) :
    Nat × ObjectPoolWrapper :=
  let pool := w.object_pool ++ [entry]
  let idx := pool.length - 1
  let table :=
    if entry.patchable = Patchability.kNotPatchable then
      (dedupKey entry, idx) :: w.object_pool_index_table
    else
      w.object_pool_index_table
  (idx, ⟨pool, table⟩)

/-- Lookup (`ObjectPoolWrapper::FindObject`, lines 332-342): probe the dedup
index for `kNotPatchable` entries; on a hit return the existing index,
otherwise fall through to `AddObject`. -/
def FindObject (w : ObjectPoolWrapper) (entry : ObjectPoolWrapperEntry) :
    Nat × ObjectPoolWrapper :=
  if entry.patchable = Patchability.kNotPatchable then
    match LookupValue w.object_pool_index_table (dedupKey entry) with
    | some idx => (idx, w)
    | none => AddObject w entry
  else
    AddObject w entry

/-- Errors of the nulling loop in `Reset`. -/
inductive ResetError
| nullEquivalenceDeref
deriving DecidableEq

/-- The nulling loop of `ObjectPoolWrapper::Reset` (lines 254-260): for
every `kTaggedObject` entry it assigns null through `obj_` and through
`equivalence_`; `obj_` always points at a handle, but `equivalence_` may
be `NULL`, and the store through it is unguarded — that dereference is
modelled as an error. -/
def resetNullHandles : List ObjectPoolWrapperEntry → Except ResetError Unit
| [] => Except.ok ()
| e :: rest =>
  if e.type = EntryType.kTaggedObject then
    match e.equivalence with
    | none => Except.error ResetError.nullEquivalenceDeref
    | some _ => resetNullHandles rest
  else
    resetNullHandles rest

/-- Rollback (`ObjectPoolWrapper::Reset`, lines 253-264): null out the accumulated
handles, then clear the pool list and the dedup index. -/
def Reset (w : ObjectPoolWrapper) : Except ResetError ObjectPoolWrapper :=
  match resetNullHandles w.object_pool with
  | Except.error e => Except.error e
  | Except.ok () => Except.ok ⟨[], []⟩

/-- One slot of a materialized `ObjectPool`. -/
structure PoolSlot where
  type : EntryType
  patchable : Patchability
  taggedValue : Option Obj
  rawValue : Option Int
deriving DecidableEq

/-- Materialization (`ObjectPoolWrapper::MakeObjectPool`, lines 374-391): materialize the
accumulated entries — per slot the type and patchability, the object for
tagged entries, the raw value otherwise.  The `len == 0` early return of
the shared canonical empty pool coincides with the empty list here. -/
def MakeObjectPool (w : ObjectPoolWrapper) : List PoolSlot :=
  w.object_pool.map (fun e =>
    { type := e.type
      patchable := e.patchable
      taggedValue := if e.type = EntryType.kTaggedObject then some e.obj else none
      rawValue := if e.type = EntryType.kTaggedObject then none else some e.raw_value })

/-- Operations a client may issue against the wrapper while building. -/
inductive PoolOp
| add (e : ObjectPoolWrapperEntry)
| find (e : ObjectPoolWrapperEntry)

/-- Run a sequence of `AddObject`/`FindObject` calls, collecting the
returned indices. -/
def runOps (w : ObjectPoolWrapper) : List PoolOp → ObjectPoolWrapper × List Nat
| [] => (w, [])
| op :: rest =>
  let step := match op with
    | PoolOp.add e => AddObject w e
    | PoolOp.find e => FindObject w e
  let tail := runOps step.2 rest
  (tail.1, step.1 :: tail.2)

/-- Well-formedness of the dedup index: every recorded pair points at an
existing pool entry, and that entry is `kNotPatchable`. -/
def WFIndexTable (w : ObjectPoolWrapper) : Prop :=
  ∀ p ∈ w.object_pool_index_table,
    ∃ e, w.object_pool.get? p.2 = some e ∧ e.patchable = Patchability.kNotPatchable

/-! ### The assembler buffer -/

def KB : Int := 1024

def MB : Int := 1048576

/-- Word size of the modelled 64-bit target (`kWordSize`). -/
def kWordSize : Int := 8

/-- Modelled from the spec: the fixed guard band (`kMinimumGap`,
declared in the missing `assembler.h`) — minimum headroom large enough
for any single instruction encoding. -/
def kMinimumGap : Int := 32

/-- Two's-complement wrap-around of `intptr_t` arithmetic on a 64-bit
target. -/
def wrap64 (x : Int) : Int := (x + 2 ^ 63) % 2 ^ 64 - 2 ^ 63

/-- A destination memory region (`MemoryRegion`): raw byte content over
`[0, size)`, plus the object-pointer stores performed into it by
`Store<const Object*>` (most recent first). -/
structure MemoryRegion where
  size : Int
  bytes : Int → Nat
  patched : List (Int × Obj)

/-- Copy (`MemoryRegion::CopyFrom(offset, from)`): copy the source `size` bytes
into this region starting at `offset`. -/
def MemoryRegion.CopyFrom (dest : MemoryRegion) (offset : Int)
    (src : MemoryRegion) : MemoryRegion :=
  { dest with
    bytes := fun i =>
      if offset ≤ i ∧ i < offset + src.size then src.bytes (i - offset)
      else dest.bytes i }

/-- Pointer store (`region.Store<const Object*>(position, &object)`) — record the
object-pointer store at `position`. -/
def MemoryRegion.StoreObject (r : MemoryRegion) (position : Int) (obj : Obj) :
    MemoryRegion :=
  { r with patched := (position, obj) :: r.patched }

/-- An `AssemblerFixup` node.  The single concrete kind defined in this
file is `PatchCodeWithHandle` (lines 135-154, `IsPointerOffset` true);
fixup kinds defined elsewhere in the system only touch the region and
report `IsPointerOffset` false, modelled by an opaque region effect. -/
inductive AssemblerFixup
| patchCodeWithHandle (object : Obj) (position : Int)
| otherFixup (eff : MemoryRegion → MemoryRegion) (position : Int)

/-- The fixup's recorded position. -/
def AssemblerFixup.position : AssemblerFixup → Int
| AssemblerFixup.patchCodeWithHandle _ p => p
| AssemblerFixup.otherFixup _ p => p

/-- Discriminator `AssemblerFixup::IsPointerOffset`. -/
def AssemblerFixup.IsPointerOffset : AssemblerFixup → Bool
| AssemblerFixup.patchCodeWithHandle _ _ => true
| AssemblerFixup.otherFixup _ _ => false

/-- Replay step (`PatchCodeWithHandle::Process`, lines 141-147): store the handle
into the region at the fixup's position and append the position to the
buffer's pointer-offsets array; other fixup kinds only act on the
region. -/
def AssemblerFixup.Process (f : AssemblerFixup) (region : MemoryRegion)
    (pointer_offsets : List Int) : MemoryRegion × List Int :=
  match f with
  | AssemblerFixup.patchCodeWithHandle obj position =>
      (region.StoreObject position obj, pointer_offsets ++ [position])
  | AssemblerFixup.otherFixup eff _ => (eff region, pointer_offsets)

/-- The position a pointer-offset fixup patches, `none` for other
kinds. -/
def AssemblerFixup.pointerPositionOf : AssemblerFixup → Option Int
| AssemblerFixup.patchCodeWithHandle _ p => some p
| AssemblerFixup.otherFixup _ _ => none

/-- The `(position, object)` store a pointer-offset fixup performs,
`none` for other kinds. -/
def AssemblerFixup.patchOf : AssemblerFixup → Option (Int × Obj)
| AssemblerFixup.patchCodeWithHandle o p => some (p, o)
| AssemblerFixup.otherFixup _ _ => none

/-- State of `AssemblerBuffer`.  Addresses are `Int`; `data i` is the byte
stored at offset `i` from `contents`; `fixup` is the `fixup_` chain with
the most recently added node first. -/
structure AssemblerBuffer where
  contents : Int
  cursor : Int
  limit : Int
  data : Int → Nat
  fixup : List AssemblerFixup
  pointer_offsets : List Int
  has_ensured_capacity : Bool
  fixups_processed : Bool

/-- Modelled from the spec: logical size is `cursor - contents`
(declared in the missing `assembler.h`). -/
def Size (b : AssemblerBuffer) : Int := b.cursor - b.contents

/-- Modelled from the spec: `limit = contents + capacity - guard_band`,
so `Capacity = (limit - contents) + kMinimumGap`. -/
def Capacity (b : AssemblerBuffer) : Int := b.limit - b.contents + kMinimumGap

/-- Modelled from the spec: `ComputeLimit(data, capacity)` places the
limit a guard band below the end of the allocation. -/
def ComputeLimit (data capacity : Int) : Int := data + capacity - kMinimumGap

/-- Modelled from the spec: the remaining headroom measured by the
`EnsureCapacity` guard — capacity not yet consumed by emitted bytes. -/
def ComputeGap (b : AssemblerBuffer) : Int := Capacity b - Size b

/-- The `AssemblerBuffer` constructor (lines 69-84): a fresh 4 KB buffer
at allocation base `base` with uninitialized bytes `fresh`. -/
def AssemblerBuffer.mkInitial (base : Int) (fresh : Int → Nat) :
    AssemblerBuffer :=
  { contents := base
    cursor := base
    limit := ComputeLimit base (4 * KB)
    data := fresh
    fixup := []
    pointer_offsets := []
    has_ensured_capacity := false
    fixups_processed := false }

/-- The new-capacity computation of `ExtendCapacity` (lines 111-112) in
wrapping `intptr_t` arithmetic:
`Utils::Minimum(old_capacity * 2, old_capacity + 1 * MB)`. -/
def newCapacityOf (old_capacity : Int) : Int :=
  min (wrap64 (old_capacity * 2)) (wrap64 (old_capacity + MB))

/-- Growth (`AssemblerBuffer::ExtendCapacity`, lines 108-133).  `FATAL` on the
wrapped computation is `none`.  The fresh allocation's base address
`new_contents` and its uninitialized content `fresh` are parameters (the
zone allocator chooses them); `memmove` copies the first `Size()` bytes,
the cursor is relocated by the base-address delta and the limit is
recomputed. -/
def ExtendCapacity (new_contents : Int) (fresh : Int → Nat)
    (b : AssemblerBuffer) : Option AssemblerBuffer :=
  let old_size := Size b
  let old_capacity := Capacity b
  let new_capacity := newCapacityOf old_capacity
  if new_capacity < old_capacity then
    none
  else
    some { b with
      contents := new_contents
      data := fun i => if 0 ≤ i ∧ i < old_size then b.data i else fresh i
      cursor := b.cursor + (new_contents - b.contents)
      limit := ComputeLimit new_contents new_capacity }

/-- The failure modes of the buffer: the `FATAL` overflow abort and the
three debug assertions of the `EnsureCapacity` guard. -/
inductive AsmAssert
| fatalCapacityOverflow
| gapBelowMinimum
| nestedEnsureCapacity
| instructionExceededGap
deriving DecidableEq

/-- The state a live `EnsureCapacity` guard carries: the gap recorded at
acquisition (`gap_`). -/
structure EnsureCapacityGuard where
  gap : Int
deriving DecidableEq

/-- Guard acquisition (`AssemblerBuffer::EnsureCapacity::EnsureCapacity`, lines 43-57,
debug builds): extend when `cursor >= limit`, record the gap, assert the
gap covers `kMinimumGap`, assert no guard is already held, mark the
buffer. -/
def EnsureCapacityAcquire (new_contents : Int) (fresh : Int → Nat)
    (b : AssemblerBuffer) :
    Except AsmAssert (EnsureCapacityGuard × AssemblerBuffer) :=
  match (if b.limit ≤ b.cursor then ExtendCapacity new_contents fresh b
         else some b) with
  | none => Except.error AsmAssert.fatalCapacityOverflow
  | some b1 =>
    let gap := ComputeGap b1
    if gap < kMinimumGap then Except.error AsmAssert.gapBelowMinimum
    else if b1.has_ensured_capacity then
      Except.error AsmAssert.nestedEnsureCapacity
    else
      Except.ok (⟨gap⟩, { b1 with has_ensured_capacity := true })

/-- Guard release (`AssemblerBuffer::EnsureCapacity::~EnsureCapacity`, lines 59-66,
debug builds): unmark the buffer, then assert the bytes emitted since
acquisition (`gap_ - ComputeGap()`) stayed within the guard band. -/
def EnsureCapacityRelease (g : EnsureCapacityGuard) (b : AssemblerBuffer) :
    Except AsmAssert AssemblerBuffer :=
  let b1 := { b with has_ensured_capacity := false }
  let delta := g.gap - ComputeGap b1
  if delta ≤ kMinimumGap then Except.ok b1
  else Except.error AsmAssert.instructionExceededGap

/-- Modelled from the spec: `EmitFixup` (declared in the missing
`assembler.h`) records the node at the current size and links it at the
head of the chain. -/
def EmitFixup (b : AssemblerBuffer) (mk : Int → AssemblerFixup) :
    AssemblerBuffer :=
  { b with fixup := mk (Size b) :: b.fixup }

/-- Reference slot emission (`AssemblerBuffer::EmitObject`, lines 166-173): register a
`PatchCodeWithHandle` fixup at the current position and reserve one word
for the pointer. -/
def EmitObject (b : AssemblerBuffer) (object : Obj) : AssemblerBuffer :=
  let b1 := EmitFixup b (fun pos => AssemblerFixup.patchCodeWithHandle object pos)
  { b1 with cursor := b1.cursor + kWordSize }

/-- Raw byte emission (`EmitBytes` / `Emit<T>` of the header): write the
bytes at the cursor and advance it. -/
def EmitRawBytes (b : AssemblerBuffer) (bs : List Nat) : AssemblerBuffer :=
  { b with
    data := fun i =>
      if Size b ≤ i ∧ i < Size b + bs.length then bs.getD (i - Size b).toNat 0
      else b.data i
    cursor := b.cursor + bs.length }

/-- Count (`AssemblerBuffer::CountPointerOffsets`, lines 156-164): count the
chain nodes whose `IsPointerOffset()` is true. -/
def CountPointerOffsets (b : AssemblerBuffer) : Nat :=
  b.fixup.countP (fun f => f.IsPointerOffset)

/-- Replay (`AssemblerBuffer::ProcessFixups`, lines 88-94): walk the chain from
the most recently added node, calling `Process(region, position)` on
each exactly once. -/
def ProcessFixups : List AssemblerFixup → MemoryRegion → List Int →
    MemoryRegion × List Int
| [], region, po => (region, po)
| f :: rest, region, po =>
  let step := f.Process region po
  ProcessFixups rest step.1 step.2

/-- Finalization (`AssemblerBuffer::FinalizeInstructions`, lines 96-106): copy the
buffer's current `Size()` bytes into the destination region, then
process the fixups against that destination; the buffer keeps the grown
pointer-offsets array and is marked processed. -/
def FinalizeInstructions (b : AssemblerBuffer) (instructions : MemoryRegion) :
    (MemoryRegion × List Int) × AssemblerBuffer :=
  let src : MemoryRegion := { size := Size b, bytes := b.data, patched := [] }
  let copied := instructions.CopyFrom 0 src
  let res := ProcessFixups b.fixup copied b.pointer_offsets
  (res, { b with pointer_offsets := res.2, fixups_processed := true })

/-- An emission step: raw bytes or a reference slot via `EmitObject`. -/
inductive EmitOp
| raw (bs : List Nat)
| object (o : Obj)

/-- Run a sequence of emission steps. -/
def runEmit (b : AssemblerBuffer) : List EmitOp → AssemblerBuffer
| [] => b
| EmitOp.raw bs :: rest => runEmit (EmitRawBytes b bs) rest
| EmitOp.object o :: rest => runEmit (EmitObject b o) rest

/-- The number of reference slots in an emission sequence. -/
def countEmitObjects : List EmitOp → Nat
| [] => 0
| EmitOp.raw _ :: rest => countEmitObjects rest
| EmitOp.object _ :: rest => countEmitObjects rest + 1

/-! ### The builder's two-state lifecycle -/

/-- Modelled from the spec: the two lifecycle states of the object pool
builder.  The state itself is not reified in `assembler.cc` — mutation
after materialization is a contract violation of the interface — so the
state machine is taken from the spec's words. -/
inductive BuilderState
| Building
| Materialized
deriving DecidableEq

/-- Modelled from the spec: a builder together with its lifecycle
state. -/
structure BuilderSM where
  wrapper : ObjectPoolWrapper
  state : BuilderState

/-- The contract violations of the builder lifecycle. -/
inductive ContractViolation
| mutationAfterMaterialize
deriving DecidableEq

/-- Modelled from the spec: `AddObject` is accepted only in `Building`;
in `Materialized` it is a contract violation. -/
def BuilderSM.addObject (b : BuilderSM) (e : ObjectPoolWrapperEntry) :
    Except ContractViolation (Nat × BuilderSM) :=
  match b.state with
  | BuilderState.Materialized =>
      Except.error ContractViolation.mutationAfterMaterialize
  | BuilderState.Building =>
      let r := AddObject b.wrapper e
      Except.ok (r.1, ⟨r.2, BuilderState.Building⟩)

/-- Modelled from the spec: `FindObject` is accepted only in `Building`;
in `Materialized` it is a contract violation. -/
def BuilderSM.findObject (b : BuilderSM) (e : ObjectPoolWrapperEntry) :
    Except ContractViolation (Nat × BuilderSM) :=
  match b.state with
  | BuilderState.Materialized =>
      Except.error ContractViolation.mutationAfterMaterialize
  | BuilderState.Building =>
      let r := FindObject b.wrapper e
      Except.ok (r.1, ⟨r.2, BuilderState.Building⟩)

/-- Modelled from the spec: `MakeObjectPool` materializes the entries
and moves the builder to `Materialized`. -/
def BuilderSM.makeObjectPool (b : BuilderSM) : List PoolSlot × BuilderSM :=
  (MakeObjectPool b.wrapper, ⟨b.wrapper, BuilderState.Materialized⟩)

/-- Modelled from the spec: `Reset` is accepted in either state and
returns the builder to `Building`. -/
def BuilderSM.reset (b : BuilderSM) : Except ResetError BuilderSM :=
  match Reset b.wrapper with
  | Except.error e => Except.error e
  | Except.ok w => Except.ok ⟨w, BuilderState.Building⟩

/-! ### Lemmas about the dedup index -/

theorem lookupValue_cons_self (t : List (DedupKey × Nat)) (k : DedupKey)
    (i : Nat) : LookupValue ((k, i) :: t) k = some i := by
  simp [LookupValue]

theorem addObject_notPatchable (w : ObjectPoolWrapper)
    (e : ObjectPoolWrapperEntry)
    (h : e.patchable = Patchability.kNotPatchable) :
    AddObject w e =
      (w.object_pool.length,
       ⟨w.object_pool ++ [e],
        (dedupKey e, w.object_pool.length) :: w.object_pool_index_table⟩) := by
  simp [AddObject, h]

theorem addObject_patchable (w : ObjectPoolWrapper)
    (e : ObjectPoolWrapperEntry)
    (h : e.patchable = Patchability.kPatchable) :
    AddObject w e =
      (w.object_pool.length,
       ⟨w.object_pool ++ [e], w.object_pool_index_table⟩) := by
  simp [AddObject, h]

/-- C1: for every pool state and every two `kNotPatchable` entries with
equal dedup keys, after the first `FindObject` call returns index `i`, a
second `FindObject` call with the second entry returns the same index
`i`, and the pool's entry count is unchanged — no new entry is
appended. -/
theorem findObject_dedup_idempotent (w : ObjectPoolWrapper)
    (e1 e2 : ObjectPoolWrapperEntry)
    (h1 : e1.patchable = Patchability.kNotPatchable)
    (h2 : e2.patchable = Patchability.kNotPatchable)
    (hk : dedupKey e1 = dedupKey e2) :
    (FindObject (FindObject w e1).2 e2).1 = (FindObject w e1).1 ∧
    (FindObject (FindObject w e1).2 e2).2.object_pool.length
      = (FindObject w e1).2.object_pool.length := by
  unfold FindObject
  rw [h1, h2, if_pos rfl, if_pos rfl, ← hk]
  cases hl : LookupValue w.object_pool_index_table (dedupKey e1) with
  | some idx => simp [hl]
  | none =>
      rw [addObject_notPatchable w e1 h1]
      simp [lookupValue_cons_self]

/-- Closed witness for `findObject_dedup_idempotent`: two distinct
immediate entries with the same raw word share the dedup key, and the
second lookup hits the first's slot. -/
theorem findObject_dedup_idempotent_witness :
    (⟨EntryType.kImmediate, Patchability.kNotPatchable, Obj.null, none, 7⟩ :
        ObjectPoolWrapperEntry).patchable = Patchability.kNotPatchable ∧
    (⟨EntryType.kImmediate, Patchability.kNotPatchable, Obj.other 3, none, 7⟩ :
        ObjectPoolWrapperEntry).patchable = Patchability.kNotPatchable ∧
    dedupKey ⟨EntryType.kImmediate, Patchability.kNotPatchable, Obj.null, none, 7⟩
      = dedupKey ⟨EntryType.kImmediate, Patchability.kNotPatchable, Obj.other 3, none, 7⟩ ∧
    ((FindObject (FindObject ObjectPoolWrapper.init
        ⟨EntryType.kImmediate, Patchability.kNotPatchable, Obj.null, none, 7⟩).2
        ⟨EntryType.kImmediate, Patchability.kNotPatchable, Obj.other 3, none, 7⟩).1
      = (FindObject ObjectPoolWrapper.init
        ⟨EntryType.kImmediate, Patchability.kNotPatchable, Obj.null, none, 7⟩).1 ∧
    (FindObject (FindObject ObjectPoolWrapper.init
        ⟨EntryType.kImmediate, Patchability.kNotPatchable, Obj.null, none, 7⟩).2
        ⟨EntryType.kImmediate, Patchability.kNotPatchable, Obj.other 3, none, 7⟩).2.object_pool.length
      = (FindObject ObjectPoolWrapper.init
        ⟨EntryType.kImmediate, Patchability.kNotPatchable, Obj.null, none, 7⟩).2.object_pool.length) :=
  ⟨rfl, rfl, by decide,
   findObject_dedup_idempotent ObjectPoolWrapper.init _ _ rfl rfl (by decide)⟩

/-- C7: the dedup hash returns the raw word for non-reference kinds, the
fixed sentinel 2011 for a null reference, the canonical content hash for
string or number references, the payload-start address for a code
reference, the structural hash for a function reference, the name hash
for a field reference, and the class id for every other reference. -/
theorem hashcode_tiering :
    (∀ p o eq v, ObjIndexPair.Hashcode
        ⟨EntryType.kImmediate, p, o, eq, v⟩ = v) ∧
    (∀ p o eq v, ObjIndexPair.Hashcode
        ⟨EntryType.kNativeFunction, p, o, eq, v⟩ = v) ∧
    (∀ p o eq v, ObjIndexPair.Hashcode
        ⟨EntryType.kNativeFunctionWrapper, p, o, eq, v⟩ = v) ∧
    (∀ p eq v, ObjIndexPair.Hashcode
        ⟨EntryType.kTaggedObject, p, Obj.null, eq, v⟩ = 2011) ∧
    (∀ p eq v h, ObjIndexPair.Hashcode
        ⟨EntryType.kTaggedObject, p, Obj.str h, eq, v⟩ = h) ∧
    (∀ p eq v h, ObjIndexPair.Hashcode
        ⟨EntryType.kTaggedObject, p, Obj.number h, eq, v⟩ = h) ∧
    (∀ p eq v a, ObjIndexPair.Hashcode
        ⟨EntryType.kTaggedObject, p, Obj.code a, eq, v⟩ = a) ∧
    (∀ p eq v h, ObjIndexPair.Hashcode
        ⟨EntryType.kTaggedObject, p, Obj.fn h, eq, v⟩ = h) ∧
    (∀ p eq v h, ObjIndexPair.Hashcode
        ⟨EntryType.kTaggedObject, p, Obj.fieldRef h, eq, v⟩ = h) ∧
    (∀ p eq v c, ObjIndexPair.Hashcode
        ⟨EntryType.kTaggedObject, p, Obj.other c, eq, v⟩ = c) := by
  refine ⟨?_, ?_, ?_, ?_, ?_, ?_, ?_, ?_, ?_, ?_⟩ <;> intros <;> rfl

/-- C10: `Reset` nulls the handles of every tagged entry through both
`obj_` and `equivalence_` unconditionally; the `equivalence_` store is
unguarded, so `Reset` avoids the null-dereference error exactly when
every tagged entry in the pool carries a non-null equivalence handle. -/
theorem reset_null_equivalence_guard (w : ObjectPoolWrapper) :
    (∃ w', Reset w = Except.ok w') ↔
      ∀ e ∈ w.object_pool,
        e.type = EntryType.kTaggedObject → e.equivalence ≠ none := by
  have key : ∀ l : List ObjectPoolWrapperEntry,
      resetNullHandles l = Except.ok () ↔
        ∀ e ∈ l, e.type = EntryType.kTaggedObject → e.equivalence ≠ none := by
    intro l
    induction l with
    | nil => simp [resetNullHandles]
    | cons e rest ih =>
        by_cases ht : e.type = EntryType.kTaggedObject
        · cases heq : e.equivalence with
          | none =>
              simp [resetNullHandles, ht, heq]
          | some o =>
              simp only [resetNullHandles, if_pos ht, heq, List.mem_cons]
              rw [ih]
              constructor
              · rintro h e' (rfl | he') ht'
                · simp [heq]
                · exact h e' he' ht'
              · intro h e' he' ht'
                exact h e' (Or.inr he') ht'
        · simp only [resetNullHandles, if_neg ht, List.mem_cons]
          rw [ih]
          constructor
          · rintro h e' (rfl | he') ht'
            · exact absurd ht' ht
            · exact h e' he' ht'
          · intro h e' he' ht'
            exact h e' (Or.inr he') ht'
  unfold Reset
  cases hr : resetNullHandles w.object_pool with
  | error e =>
      simp only []
      constructor
      · rintro ⟨w', hw'⟩; cases hw'
      · intro h
        have := (key w.object_pool).mpr h
        rw [hr] at this
        cases this
  | ok u =>
      cases u
      simp only []
      constructor
      · intro _
        exact ((key w.object_pool).mp hr)
      · intro _
        exact ⟨⟨[], []⟩, rfl⟩

theorem lookupValue_wf (w : ObjectPoolWrapper) (hwf : WFIndexTable w)
    (k : DedupKey) (i : Nat)
    (h : LookupValue w.object_pool_index_table k = some i) :
    ∃ e', w.object_pool.get? i = some e' ∧
      e'.patchable = Patchability.kNotPatchable := by
  unfold LookupValue at h
  cases hf : w.object_pool_index_table.find? (fun p => decide (p.1 = k)) with
  | none => rw [hf] at h; cases h
  | some p =>
      rw [hf] at h
      simp at h
      cases h
      exact hwf p (List.mem_of_find?_eq_some hf)

theorem addObject_preserves_wf (w : ObjectPoolWrapper)
    (e : ObjectPoolWrapperEntry) (hwf : WFIndexTable w) :
    WFIndexTable (AddObject w e).2 := by
  by_cases h : e.patchable = Patchability.kNotPatchable
  · rw [addObject_notPatchable w e h]
    intro p hp
    rcases List.mem_cons.mp hp with rfl | hp
    · exact ⟨e, List.get?_concat_length _ _, h⟩
    · obtain ⟨e', he', hpe'⟩ := hwf p hp
      exact ⟨e', by rw [List.get?_append (List.get?_eq_some.mp he').1]; exact he',
             hpe'⟩
  · have h2 : e.patchable = Patchability.kPatchable := by
      cases hpe : e.patchable
      · rfl
      · exact absurd hpe h
    rw [addObject_patchable w e h2]
    intro p hp
    obtain ⟨e', he', hpe'⟩ := hwf p hp
    exact ⟨e', by rw [List.get?_append (List.get?_eq_some.mp he').1]; exact he',
           hpe'⟩

theorem findObject_preserves_wf (w : ObjectPoolWrapper)
    (e : ObjectPoolWrapperEntry) (hwf : WFIndexTable w) :
    WFIndexTable (FindObject w e).2 := by
  unfold FindObject
  by_cases h : e.patchable = Patchability.kNotPatchable
  · rw [if_pos h]
    cases LookupValue w.object_pool_index_table (dedupKey e) with
    | some idx => exact hwf
    | none => exact addObject_preserves_wf w e hwf
  · rw [if_neg h]
    exact addObject_preserves_wf w e hwf

/-- C2: two `FindObject` calls with identical content but `kPatchable`
status each append a fresh entry and return two distinct indices; a
patchable entry is never inserted into the dedup index (the index is
unchanged by both calls), and — in a well-formed state — a dedup lookup
only ever returns the index of a `kNotPatchable` entry. -/
theorem findObject_patchable_fresh (w : ObjectPoolWrapper)
    (e : ObjectPoolWrapperEntry)
    (hp : e.patchable = Patchability.kPatchable) (hwf : WFIndexTable w) :
    (FindObject w e).1 ≠ (FindObject (FindObject w e).2 e).1 ∧
    (FindObject w e).2.object_pool.length = w.object_pool.length + 1 ∧
    (FindObject (FindObject w e).2 e).2.object_pool.length
      = w.object_pool.length + 2 ∧
    (FindObject w e).2.object_pool_index_table = w.object_pool_index_table ∧
    (FindObject (FindObject w e).2 e).2.object_pool_index_table
      = w.object_pool_index_table ∧
    WFIndexTable (FindObject (FindObject w e).2 e).2 ∧
    (∀ k i, LookupValue w.object_pool_index_table k = some i →
      ∃ e', w.object_pool.get? i = some e' ∧
        e'.patchable = Patchability.kNotPatchable) := by
  have hnp : ¬ e.patchable = Patchability.kNotPatchable := by
    rw [hp]; intro hc; cases hc
  have hwf2 : WFIndexTable (FindObject (FindObject w e).2 e).2 :=
    findObject_preserves_wf _ e (findObject_preserves_wf w e hwf)
  refine ⟨?_, ?_, ?_, ?_, ?_, hwf2, fun k i h => lookupValue_wf w hwf k i h⟩ <;>
    simp [FindObject, if_neg hnp, addObject_patchable _ e hp]

/-- Closed witness for `findObject_patchable_fresh`: a patchable
immediate added twice to a fresh builder lands in slots 0 and 1. -/
theorem findObject_patchable_fresh_witness :
    (⟨EntryType.kImmediate, Patchability.kPatchable, Obj.null, none, 7⟩ :
        ObjectPoolWrapperEntry).patchable = Patchability.kPatchable ∧
    WFIndexTable ObjectPoolWrapper.init ∧
    ((FindObject ObjectPoolWrapper.init
        ⟨EntryType.kImmediate, Patchability.kPatchable, Obj.null, none, 7⟩).1
      ≠ (FindObject (FindObject ObjectPoolWrapper.init
          ⟨EntryType.kImmediate, Patchability.kPatchable, Obj.null, none, 7⟩).2
          ⟨EntryType.kImmediate, Patchability.kPatchable, Obj.null, none, 7⟩).1 ∧
      (FindObject ObjectPoolWrapper.init
        ⟨EntryType.kImmediate, Patchability.kPatchable, Obj.null, none, 7⟩).2.object_pool.length
        = ObjectPoolWrapper.init.object_pool.length + 1 ∧
      (FindObject (FindObject ObjectPoolWrapper.init
          ⟨EntryType.kImmediate, Patchability.kPatchable, Obj.null, none, 7⟩).2
          ⟨EntryType.kImmediate, Patchability.kPatchable, Obj.null, none, 7⟩).2.object_pool.length
        = ObjectPoolWrapper.init.object_pool.length + 2 ∧
      (FindObject ObjectPoolWrapper.init
        ⟨EntryType.kImmediate, Patchability.kPatchable, Obj.null, none, 7⟩).2.object_pool_index_table
        = ObjectPoolWrapper.init.object_pool_index_table ∧
      (FindObject (FindObject ObjectPoolWrapper.init
          ⟨EntryType.kImmediate, Patchability.kPatchable, Obj.null, none, 7⟩).2
          ⟨EntryType.kImmediate, Patchability.kPatchable, Obj.null, none, 7⟩).2.object_pool_index_table
        = ObjectPoolWrapper.init.object_pool_index_table ∧
      WFIndexTable (FindObject (FindObject ObjectPoolWrapper.init
          ⟨EntryType.kImmediate, Patchability.kPatchable, Obj.null, none, 7⟩).2
          ⟨EntryType.kImmediate, Patchability.kPatchable, Obj.null, none, 7⟩).2 ∧
      (∀ k i, LookupValue ObjectPoolWrapper.init.object_pool_index_table k = some i →
        ∃ e', ObjectPoolWrapper.init.object_pool.get? i = some e' ∧
          e'.patchable = Patchability.kNotPatchable)) :=
  ⟨rfl, fun p hp => absurd hp (List.not_mem_nil p),
   findObject_patchable_fresh ObjectPoolWrapper.init _ rfl
     (fun p hp => absurd hp (List.not_mem_nil p))⟩

/-- C9: a successful `Reset` leaves the builder in exactly the freshly
constructed state, so every subsequent `AddObject`/`FindObject` sequence
behaves as on a fresh builder — the entry count restarts at 0, indices
are assigned from 0, and no lookup can hit an entry added before the
reset. -/
theorem reset_behaves_like_fresh (w w' : ObjectPoolWrapper)
    (h : Reset w = Except.ok w') :
    w'.object_pool.length = 0 ∧
    (∀ ops, runOps w' ops = runOps ObjectPoolWrapper.init ops) := by
  have hw : w' = ObjectPoolWrapper.init := by
    unfold Reset at h
    cases hr : resetNullHandles w.object_pool with
    | error e => rw [hr] at h; cases h
    | ok u =>
        cases u
        rw [hr] at h
        injection h with h2
        exact h2.symm
  subst hw
  exact ⟨rfl, fun ops => rfl⟩

/-- Closed witness for `reset_behaves_like_fresh`: resetting a builder
holding one tagged entry (with its equivalence handle) succeeds and
yields the fresh state. -/
theorem reset_behaves_like_fresh_witness :
    Reset ⟨[⟨EntryType.kTaggedObject, Patchability.kNotPatchable,
             Obj.str 5, some (Obj.str 5), 0⟩],
           [(DedupKey.tagged (Obj.str 5), 0)]⟩
        = Except.ok ObjectPoolWrapper.init ∧
    (ObjectPoolWrapper.init.object_pool.length = 0 ∧
     (∀ ops, runOps ObjectPoolWrapper.init ops
        = runOps ObjectPoolWrapper.init ops)) :=
  ⟨rfl, reset_behaves_like_fresh
     ⟨[⟨EntryType.kTaggedObject, Patchability.kNotPatchable,
        Obj.str 5, some (Obj.str 5), 0⟩],
      [(DedupKey.tagged (Obj.str 5), 0)]⟩
     ObjectPoolWrapper.init (by rfl)⟩

/-- C8: the builder lifecycle is a two-state machine — in `Building` it
accepts `AddObject`, `FindObject` and `Reset`; `MakeObjectPool` moves it
to `Materialized`, where any further `AddObject`/`FindObject` is a
contract violation; `Reset` returns either state to `Building`. -/
theorem builder_two_state_machine :
    (∀ (b : BuilderSM) (e : ObjectPoolWrapperEntry),
        b.state = BuilderState.Building →
        (∃ r, b.addObject e = Except.ok r) ∧
        (∃ r, b.findObject e = Except.ok r)) ∧
    (∀ b : BuilderSM, b.makeObjectPool.2.state = BuilderState.Materialized) ∧
    (∀ (b : BuilderSM) (e : ObjectPoolWrapperEntry),
        b.state = BuilderState.Materialized →
        b.addObject e = Except.error ContractViolation.mutationAfterMaterialize ∧
        b.findObject e = Except.error ContractViolation.mutationAfterMaterialize) ∧
    (∀ b b' : BuilderSM, b.reset = Except.ok b' →
        b'.state = BuilderState.Building) := by
  refine ⟨?_, ?_, ?_, ?_⟩
  · rintro ⟨w, s⟩ e h
    simp only at h
    subst h
    exact ⟨⟨_, rfl⟩, ⟨_, rfl⟩⟩
  · intro b; rfl
  · rintro ⟨w, s⟩ e h
    simp only at h
    subst h
    exact ⟨rfl, rfl⟩
  · rintro ⟨w, s⟩ b' h
    unfold BuilderSM.reset at h
    cases hr : Reset w with
    | error er => rw [hr] at h; cases h
    | ok w2 =>
        rw [hr] at h
        injection h with h2
        rw [← h2]

/-- Closed witness for `builder_two_state_machine`: a fresh builder in
`Building` accepts an immediate, and after `MakeObjectPool` the same
insertion is rejected. -/
theorem builder_two_state_machine_witness :
    (⟨ObjectPoolWrapper.init, BuilderState.Building⟩ : BuilderSM).state
      = BuilderState.Building ∧
    (⟨ObjectPoolWrapper.init, BuilderState.Materialized⟩ : BuilderSM).state
      = BuilderState.Materialized ∧
    (∃ r, (⟨ObjectPoolWrapper.init, BuilderState.Building⟩ : BuilderSM).addObject
        ⟨EntryType.kImmediate, Patchability.kNotPatchable, Obj.null, none, 7⟩
        = Except.ok r) ∧
    (⟨ObjectPoolWrapper.init, BuilderState.Materialized⟩ : BuilderSM).addObject
        ⟨EntryType.kImmediate, Patchability.kNotPatchable, Obj.null, none, 7⟩
      = Except.error ContractViolation.mutationAfterMaterialize :=
  ⟨rfl, rfl,
   (builder_two_state_machine.1 ⟨ObjectPoolWrapper.init, BuilderState.Building⟩
      ⟨EntryType.kImmediate, Patchability.kNotPatchable, Obj.null, none, 7⟩ rfl).1,
   (builder_two_state_machine.2.2.1 ⟨ObjectPoolWrapper.init, BuilderState.Materialized⟩
      ⟨EntryType.kImmediate, Patchability.kNotPatchable, Obj.null, none, 7⟩ rfl).1⟩

/-! ### Lemmas about capacity growth -/

theorem newCapacityOf_spec (c : Int) (h0 : 0 < c) (h1 : c < 2 ^ 63) :
    (newCapacityOf c < c ↔ wrap64 (c * 2) ≠ c * 2) ∧
    (¬ newCapacityOf c < c →
       newCapacityOf c = min (c * 2) (c + MB) ∧ c < newCapacityOf c) := by
  have hMB : MB = 1048576 := rfl
  have hA : wrap64 (c * 2) = if c * 2 < 2 ^ 63 then c * 2 else c * 2 - 2 ^ 64 := by
    unfold wrap64; split <;> omega
  have hB : wrap64 (c + MB) =
      if c + MB < 2 ^ 63 then c + MB else c + MB - 2 ^ 64 := by
    unfold wrap64; split <;> omega
  unfold newCapacityOf
  rw [hA, hB]
  simp only [min_def]
  split_ifs <;> omega

theorem extendCapacity_some (b : AssemblerBuffer) (nc : Int)
    (fresh : Int → Nat) (hc : ¬ newCapacityOf (Capacity b) < Capacity b) :
    ExtendCapacity nc fresh b = some { b with
      contents := nc
      data := fun i => if 0 ≤ i ∧ i < Size b then b.data i else fresh i
      cursor := b.cursor + (nc - b.contents)
      limit := ComputeLimit nc (newCapacityOf (Capacity b)) } := by
  simp only [ExtendCapacity, if_neg hc]

theorem extendCapacity_none (b : AssemblerBuffer) (nc : Int)
    (fresh : Int → Nat) (hc : newCapacityOf (Capacity b) < Capacity b) :
    ExtendCapacity nc fresh b = none := by
  simp only [ExtendCapacity, if_pos hc]

theorem extendCapacity_isSome_iff (b : AssemblerBuffer) (nc : Int)
    (fresh : Int → Nat) :
    ExtendCapacity nc fresh b = none ↔
      newCapacityOf (Capacity b) < Capacity b := by
  constructor
  · intro h
    by_contra hc
    rw [extendCapacity_some b nc fresh hc] at h
    cases h
  · intro hc
    exact extendCapacity_none b nc fresh hc

/-- C4: `ExtendCapacity` computes the new capacity as
`min(old * 2, old + 1 MB)` in `intptr_t` arithmetic, terminates the
process fatally (here: `none`) exactly when that computation wraps, and
otherwise strictly increases the capacity. -/
theorem extendCapacity_growth (b : AssemblerBuffer) (nc : Int)
    (fresh : Int → Nat) (h0 : 0 < Capacity b) (h1 : Capacity b < 2 ^ 63) :
    (ExtendCapacity nc fresh b = none ↔
       newCapacityOf (Capacity b) < Capacity b) ∧
    (newCapacityOf (Capacity b) < Capacity b ↔
       wrap64 (Capacity b * 2) ≠ Capacity b * 2) ∧
    (∀ b', ExtendCapacity nc fresh b = some b' →
       Capacity b' = min (Capacity b * 2) (Capacity b + MB) ∧
       Capacity b < Capacity b') := by
  obtain ⟨hiff, hgrow⟩ := newCapacityOf_spec (Capacity b) h0 h1
  refine ⟨extendCapacity_isSome_iff b nc fresh, hiff, ?_⟩
  intro b' hb'
  by_cases hc : newCapacityOf (Capacity b) < Capacity b
  · rw [extendCapacity_none b nc fresh hc] at hb'
    cases hb'
  · rw [extendCapacity_some b nc fresh hc] at hb'
    injection hb' with hb'
    subst hb'
    obtain ⟨hmin, hlt⟩ := hgrow hc
    have hcap : Capacity { b with
        contents := nc
        data := fun i => if 0 ≤ i ∧ i < Size b then b.data i else fresh i
        cursor := b.cursor + (nc - b.contents)
        limit := ComputeLimit nc (newCapacityOf (Capacity b)) }
          = newCapacityOf (Capacity b) := by
      simp only [Capacity, ComputeLimit]
      ring
    rw [hcap]
    exact ⟨hmin, hlt⟩

/-- Closed witness for `extendCapacity_growth`: growing the fresh 4 KB
buffer doubles its capacity to 8 KB. -/
theorem extendCapacity_growth_witness :
    0 < Capacity (AssemblerBuffer.mkInitial 0 (fun _ => 0)) ∧
    Capacity (AssemblerBuffer.mkInitial 0 (fun _ => 0)) < 2 ^ 63 ∧
    ((ExtendCapacity 100 (fun _ => 0) (AssemblerBuffer.mkInitial 0 (fun _ => 0))
        = none ↔
      newCapacityOf (Capacity (AssemblerBuffer.mkInitial 0 (fun _ => 0)))
        < Capacity (AssemblerBuffer.mkInitial 0 (fun _ => 0))) ∧
    (newCapacityOf (Capacity (AssemblerBuffer.mkInitial 0 (fun _ => 0)))
        < Capacity (AssemblerBuffer.mkInitial 0 (fun _ => 0)) ↔
      wrap64 (Capacity (AssemblerBuffer.mkInitial 0 (fun _ => 0)) * 2)
        ≠ Capacity (AssemblerBuffer.mkInitial 0 (fun _ => 0)) * 2) ∧
    (∀ b', ExtendCapacity 100 (fun _ => 0)
        (AssemblerBuffer.mkInitial 0 (fun _ => 0)) = some b' →
       Capacity b' = min (Capacity (AssemblerBuffer.mkInitial 0 (fun _ => 0)) * 2)
           (Capacity (AssemblerBuffer.mkInitial 0 (fun _ => 0)) + MB) ∧
       Capacity (AssemblerBuffer.mkInitial 0 (fun _ => 0)) < Capacity b')) :=
  ⟨by decide, by decide,
   extendCapacity_growth (AssemblerBuffer.mkInitial 0 (fun _ => 0)) 100
     (fun _ => 0) (by decide) (by decide)⟩

/-- C5: a successful `ExtendCapacity` preserves the buffer content
byte-for-byte over `[0, Size())` and the logical size
`cursor - contents`; it changes only the capacity, the base address, the
cursor (by the relocation delta) and the recomputed limit — fixups,
pointer offsets and the debug flag are untouched. -/
theorem extendCapacity_preserves (b : AssemblerBuffer) (nc : Int)
    (fresh : Int → Nat) (b' : AssemblerBuffer)
    (h : ExtendCapacity nc fresh b = some b') :
    Size b' = Size b ∧
    (∀ i, 0 ≤ i → i < Size b → b'.data i = b.data i) ∧
    b'.contents = nc ∧
    b'.cursor = b.cursor + (nc - b.contents) ∧
    Capacity b' = newCapacityOf (Capacity b) ∧
    b'.limit = ComputeLimit nc (newCapacityOf (Capacity b)) ∧
    b'.fixup = b.fixup ∧
    b'.pointer_offsets = b.pointer_offsets ∧
    b'.has_ensured_capacity = b.has_ensured_capacity := by
  by_cases hc : newCapacityOf (Capacity b) < Capacity b
  · rw [extendCapacity_none b nc fresh hc] at h
    cases h
  · rw [extendCapacity_some b nc fresh hc] at h
    injection h with h
    subst h
    refine ⟨?_, ?_, rfl, rfl, ?_, rfl, rfl, rfl, rfl⟩
    · simp only [Size]
      ring
    · intro i h0i his
      simp only [if_pos (And.intro h0i his)]
    · simp only [Capacity, ComputeLimit]
      ring

/-- Closed witness for `extendCapacity_preserves`, at the fresh 4 KB
buffer relocated to base 100. -/
theorem extendCapacity_preserves_witness :
    (ExtendCapacity 100 (fun _ => 0) (AssemblerBuffer.mkInitial 0 (fun _ => 0))
      = some ((ExtendCapacity 100 (fun _ => 0)
          (AssemblerBuffer.mkInitial 0 (fun _ => 0))).getD
            (AssemblerBuffer.mkInitial 0 (fun _ => 0)))) ∧
    (Size ((ExtendCapacity 100 (fun _ => 0)
        (AssemblerBuffer.mkInitial 0 (fun _ => 0))).getD
          (AssemblerBuffer.mkInitial 0 (fun _ => 0)))
      = Size (AssemblerBuffer.mkInitial 0 (fun _ => 0)) ∧
     (∀ i, 0 ≤ i → i < Size (AssemblerBuffer.mkInitial 0 (fun _ => 0)) →
        ((ExtendCapacity 100 (fun _ => 0)
            (AssemblerBuffer.mkInitial 0 (fun _ => 0))).getD
              (AssemblerBuffer.mkInitial 0 (fun _ => 0))).data i
          = (AssemblerBuffer.mkInitial 0 (fun _ => 0)).data i) ∧
     ((ExtendCapacity 100 (fun _ => 0)
        (AssemblerBuffer.mkInitial 0 (fun _ => 0))).getD
          (AssemblerBuffer.mkInitial 0 (fun _ => 0))).contents = 100 ∧
     ((ExtendCapacity 100 (fun _ => 0)
        (AssemblerBuffer.mkInitial 0 (fun _ => 0))).getD
          (AssemblerBuffer.mkInitial 0 (fun _ => 0))).cursor
       = (AssemblerBuffer.mkInitial 0 (fun _ => 0)).cursor
          + (100 - (AssemblerBuffer.mkInitial 0 (fun _ => 0)).contents) ∧
     Capacity ((ExtendCapacity 100 (fun _ => 0)
        (AssemblerBuffer.mkInitial 0 (fun _ => 0))).getD
          (AssemblerBuffer.mkInitial 0 (fun _ => 0)))
       = newCapacityOf (Capacity (AssemblerBuffer.mkInitial 0 (fun _ => 0))) ∧
     ((ExtendCapacity 100 (fun _ => 0)
        (AssemblerBuffer.mkInitial 0 (fun _ => 0))).getD
          (AssemblerBuffer.mkInitial 0 (fun _ => 0))).limit
       = ComputeLimit 100
           (newCapacityOf (Capacity (AssemblerBuffer.mkInitial 0 (fun _ => 0)))) ∧
     ((ExtendCapacity 100 (fun _ => 0)
        (AssemblerBuffer.mkInitial 0 (fun _ => 0))).getD
          (AssemblerBuffer.mkInitial 0 (fun _ => 0))).fixup
       = (AssemblerBuffer.mkInitial 0 (fun _ => 0)).fixup ∧
     ((ExtendCapacity 100 (fun _ => 0)
        (AssemblerBuffer.mkInitial 0 (fun _ => 0))).getD
          (AssemblerBuffer.mkInitial 0 (fun _ => 0))).pointer_offsets
       = (AssemblerBuffer.mkInitial 0 (fun _ => 0)).pointer_offsets ∧
     ((ExtendCapacity 100 (fun _ => 0)
        (AssemblerBuffer.mkInitial 0 (fun _ => 0))).getD
          (AssemblerBuffer.mkInitial 0 (fun _ => 0))).has_ensured_capacity
       = (AssemblerBuffer.mkInitial 0 (fun _ => 0)).has_ensured_capacity) :=
  ⟨rfl, extendCapacity_preserves (AssemblerBuffer.mkInitial 0 (fun _ => 0)) 100
     (fun _ => 0) _ rfl⟩

/-! ### The EnsureCapacity guard -/

theorem newCapacityOf_no_wrap (c : Int) (h0 : 0 < c) (h2 : c < 2 ^ 62) :
    ¬ newCapacityOf c < c ∧ c + min c MB ≤ newCapacityOf c := by
  have hMB : MB = 1048576 := rfl
  have hA : wrap64 (c * 2) = c * 2 := by unfold wrap64; omega
  have hB : wrap64 (c + MB) = c + MB := by unfold wrap64; omega
  unfold newCapacityOf
  rw [hA, hB]
  simp only [min_def]
  split_ifs <;> omega

/-- C6: acquiring an `EnsureCapacity` guard extends the buffer exactly
when `cursor >= limit`, and afterwards at least `kMinimumGap` of
headroom exists; acquiring while a guard is held fails the
non-nesting assertion; releasing succeeds exactly when the bytes emitted
since acquisition (`gap_ - ComputeGap()`) do not exceed the guard band,
and always clears the guard mark. -/
theorem ensureCapacity_guard_contract (b : AssemblerBuffer) (nc : Int)
    (fresh : Int → Nat) (hcap : 4 * KB ≤ Capacity b)
    (hcap2 : Capacity b < 2 ^ 62) (hsize : Size b ≤ Capacity b) :
    (b.has_ensured_capacity = false →
      ∃ g b1, EnsureCapacityAcquire nc fresh b = Except.ok (g, b1) ∧
        kMinimumGap ≤ ComputeGap b1 ∧
        g.gap = ComputeGap b1 ∧
        b1.has_ensured_capacity = true ∧
        (¬ b.limit ≤ b.cursor → b1 = { b with has_ensured_capacity := true })) ∧
    (b.has_ensured_capacity = true →
      EnsureCapacityAcquire nc fresh b
        = Except.error AsmAssert.nestedEnsureCapacity) ∧
    (∀ (g : EnsureCapacityGuard) (c : AssemblerBuffer),
      ((∃ c', EnsureCapacityRelease g c = Except.ok c') ↔
         g.gap - ComputeGap c ≤ kMinimumGap) ∧
      (∀ c', EnsureCapacityRelease g c = Except.ok c' →
         c'.has_ensured_capacity = false)) := by
  have hKB : KB = 1024 := rfl
  have hMB : MB = 1048576 := rfl
  have hGap : kMinimumGap = 32 := rfl
  have hc0 : 0 < Capacity b := by omega
  -- After the conditional extension, the buffer has at least the guard
  -- band of headroom and an unchanged guard mark.
  have hstep : ∃ b1,
      (if b.limit ≤ b.cursor then ExtendCapacity nc fresh b else some b)
        = some b1 ∧
      kMinimumGap ≤ ComputeGap b1 ∧
      b1.has_ensured_capacity = b.has_ensured_capacity ∧
      (¬ b.limit ≤ b.cursor → b1 = b) := by
    by_cases hext : b.limit ≤ b.cursor
    · obtain ⟨hnw, hge⟩ := newCapacityOf_no_wrap (Capacity b) hc0 hcap2
      have h4096 : Capacity b + 4096 ≤ newCapacityOf (Capacity b) := by
        rcases le_total (Capacity b) MB with hle | hle
        · rw [min_eq_left hle] at hge; omega
        · rw [min_eq_right hle] at hge; omega
      refine ⟨{ b with
          contents := nc
          data := fun i => if 0 ≤ i ∧ i < Size b then b.data i else fresh i
          cursor := b.cursor + (nc - b.contents)
          limit := ComputeLimit nc (newCapacityOf (Capacity b)) },
        by rw [if_pos hext, extendCapacity_some b nc fresh hnw], ?_, rfl,
        fun hk => absurd hext hk⟩
      have hsz : Size { b with
          contents := nc
          data := fun i => if 0 ≤ i ∧ i < Size b then b.data i else fresh i
          cursor := b.cursor + (nc - b.contents)
          limit := ComputeLimit nc (newCapacityOf (Capacity b)) } = Size b := by
        simp only [Size]; ring
      have hcp : Capacity { b with
          contents := nc
          data := fun i => if 0 ≤ i ∧ i < Size b then b.data i else fresh i
          cursor := b.cursor + (nc - b.contents)
          limit := ComputeLimit nc (newCapacityOf (Capacity b)) }
            = newCapacityOf (Capacity b) := by
        simp only [Capacity, ComputeLimit]; ring
      simp only [ComputeGap]
      rw [hsz, hcp]
      omega
    · refine ⟨b, by rw [if_neg hext], ?_, rfl, fun _ => rfl⟩
      simp only [ComputeGap, Capacity, Size] at *
      omega
  obtain ⟨b1, hb1, hgap, hflag, hnoext⟩ := hstep
  refine ⟨?_, ?_, ?_⟩
  · intro hfalse
    refine ⟨⟨ComputeGap b1⟩, { b1 with has_ensured_capacity := true }, ?_, ?_,
      rfl, rfl, ?_⟩
    · unfold EnsureCapacityAcquire
      rw [hb1]
      simp only [if_neg (not_lt.mpr hgap), hflag, hfalse, Bool.false_eq_true,
        if_false]
    · simpa using hgap
    · intro hk
      rw [hnoext hk]
  · intro htrue
    unfold EnsureCapacityAcquire
    rw [hb1]
    simp only [if_neg (not_lt.mpr hgap), hflag, htrue, if_true]
  · intro g c
    constructor
    · constructor
      · rintro ⟨c', hc'⟩
        unfold EnsureCapacityRelease at hc'
        by_cases hd : g.gap - ComputeGap { c with has_ensured_capacity := false }
            ≤ kMinimumGap
        · simpa [ComputeGap, Capacity, Size] using hd
        · rw [if_neg hd] at hc'
          cases hc'
      · intro hd
        refine ⟨{ c with has_ensured_capacity := false }, ?_⟩
        unfold EnsureCapacityRelease
        rw [if_pos ?_]
        simpa [ComputeGap, Capacity, Size] using hd
    · intro c' hc'
      unfold EnsureCapacityRelease at hc'
      by_cases hd : g.gap - ComputeGap { c with has_ensured_capacity := false }
          ≤ kMinimumGap
      · rw [if_pos hd] at hc'
        injection hc' with hc'
        rw [← hc']
      · rw [if_neg hd] at hc'
        cases hc'

/-- Closed witness for `ensureCapacity_guard_contract`, at the fresh
4 KB buffer. -/
theorem ensureCapacity_guard_contract_witness :
    4 * KB ≤ Capacity (AssemblerBuffer.mkInitial 0 (fun _ => 0)) ∧
    Capacity (AssemblerBuffer.mkInitial 0 (fun _ => 0)) < 2 ^ 62 ∧
    Size (AssemblerBuffer.mkInitial 0 (fun _ => 0))
      ≤ Capacity (AssemblerBuffer.mkInitial 0 (fun _ => 0)) ∧
    (((AssemblerBuffer.mkInitial 0 (fun _ => 0)).has_ensured_capacity = false →
      ∃ g b1, EnsureCapacityAcquire 100 (fun _ => 0)
          (AssemblerBuffer.mkInitial 0 (fun _ => 0)) = Except.ok (g, b1) ∧
        kMinimumGap ≤ ComputeGap b1 ∧
        g.gap = ComputeGap b1 ∧
        b1.has_ensured_capacity = true ∧
        (¬ (AssemblerBuffer.mkInitial 0 (fun _ => 0)).limit
            ≤ (AssemblerBuffer.mkInitial 0 (fun _ => 0)).cursor →
          b1 = { AssemblerBuffer.mkInitial 0 (fun _ => 0) with
                  has_ensured_capacity := true })) ∧
    ((AssemblerBuffer.mkInitial 0 (fun _ => 0)).has_ensured_capacity = true →
      EnsureCapacityAcquire 100 (fun _ => 0)
          (AssemblerBuffer.mkInitial 0 (fun _ => 0))
        = Except.error AsmAssert.nestedEnsureCapacity) ∧
    (∀ (g : EnsureCapacityGuard) (c : AssemblerBuffer),
      ((∃ c', EnsureCapacityRelease g c = Except.ok c') ↔
         g.gap - ComputeGap c ≤ kMinimumGap) ∧
      (∀ c', EnsureCapacityRelease g c = Except.ok c' →
         c'.has_ensured_capacity = false))) :=
  ⟨by decide, by decide, by decide,
   ensureCapacity_guard_contract (AssemblerBuffer.mkInitial 0 (fun _ => 0)) 100
     (fun _ => 0) (by decide) (by decide) (by decide)⟩

/-! ### Fixup replay -/

theorem processFixups_clean (fs : List AssemblerFixup) (r : MemoryRegion)
    (po : List Int) (h : ∀ f ∈ fs, f.IsPointerOffset = true) :
    (ProcessFixups fs r po).2
      = po ++ fs.filterMap AssemblerFixup.pointerPositionOf ∧
    (ProcessFixups fs r po).1.bytes = r.bytes ∧
    (ProcessFixups fs r po).1.size = r.size ∧
    (ProcessFixups fs r po).1.patched
      = (fs.filterMap AssemblerFixup.patchOf).reverse ++ r.patched := by
  induction fs generalizing r po with
  | nil => simp [ProcessFixups]
  | cons f rest ih =>
      cases f with
      | patchCodeWithHandle o p =>
          obtain ⟨h1, h2, h3, h4⟩ := ih (r.StoreObject p o) (po ++ [p])
            (fun f hf => h f (List.mem_cons_of_mem _ hf))
          refine ⟨?_, ?_, ?_, ?_⟩
          · show (ProcessFixups rest (r.StoreObject p o) (po ++ [p])).2 = _
            rw [h1]
            simp [AssemblerFixup.pointerPositionOf]
          · show (ProcessFixups rest (r.StoreObject p o) (po ++ [p])).1.bytes = _
            rw [h2]; rfl
          · show (ProcessFixups rest (r.StoreObject p o) (po ++ [p])).1.size = _
            rw [h3]; rfl
          · show (ProcessFixups rest (r.StoreObject p o) (po ++ [p])).1.patched
              = _
            rw [h4]
            simp [MemoryRegion.StoreObject, AssemblerFixup.patchOf]
      | otherFixup eff p =>
          have hm := h _ (List.mem_cons_self _ _)
          simp [AssemblerFixup.IsPointerOffset] at hm

theorem filterMap_pointerPositionOf_length (fs : List AssemblerFixup)
    (h : ∀ f ∈ fs, f.IsPointerOffset = true) :
    (fs.filterMap AssemblerFixup.pointerPositionOf).length = fs.length := by
  induction fs with
  | nil => rfl
  | cons f rest ih =>
      cases f with
      | patchCodeWithHandle o p =>
          simp [AssemblerFixup.pointerPositionOf,
            ih (fun f hf => h f (List.mem_cons_of_mem _ hf))]
      | otherFixup eff p =>
          have hm := h _ (List.mem_cons_self _ _)
          simp [AssemblerFixup.IsPointerOffset] at hm

theorem runEmit_fixup_shape (b : AssemblerBuffer) (ops : List EmitOp) :
    ∃ newfs : List AssemblerFixup,
      (runEmit b ops).fixup = newfs ++ b.fixup ∧
      (∀ f ∈ newfs, f.IsPointerOffset = true) ∧
      newfs.length = countEmitObjects ops ∧
      (runEmit b ops).pointer_offsets = b.pointer_offsets := by
  induction ops generalizing b with
  | nil => exact ⟨[], rfl, by simp, rfl, rfl⟩
  | cons op rest ih =>
      cases op with
      | raw bs =>
          obtain ⟨nf, h1, h2, h3, h4⟩ := ih (EmitRawBytes b bs)
          exact ⟨nf, h1, h2, h3, h4⟩
      | object o =>
          obtain ⟨nf, h1, h2, h3, h4⟩ := ih (EmitObject b o)
          refine ⟨nf ++ [AssemblerFixup.patchCodeWithHandle o (Size b)],
            ?_, ?_, ?_, h4⟩
          · show (runEmit (EmitObject b o) rest).fixup = _
            rw [h1]
            show nf ++ (AssemblerFixup.patchCodeWithHandle o (Size b) :: b.fixup)
              = _
            rw [List.append_assoc, List.singleton_append]
          · intro f hf
            rcases List.mem_append.mp hf with hf | hf
            · exact h2 f hf
            · rw [List.mem_singleton.mp hf]
              rfl
          · show (nf ++ _).length = countEmitObjects rest + 1
            simp [h3]

/-- C3: `FinalizeInstructions` copies the buffer's current `Size()`
bytes into the destination region and then applies every registered
fixup exactly once, against the destination region; when the buffer's
reference slots were emitted by N `EmitObject` calls (interleaved with
raw byte emission), exactly N offsets end up recorded in the
pointer-offsets list and `CountPointerOffsets` returns N. -/
theorem finalize_replays_each_fixup_once (b0 : AssemblerBuffer)
    (ops : List EmitOp) (dest : MemoryRegion)
    (hfix : b0.fixup = []) (hpo : b0.pointer_offsets = []) :
    CountPointerOffsets (runEmit b0 ops) = countEmitObjects ops ∧
    (FinalizeInstructions (runEmit b0 ops) dest).1.2
      = ((runEmit b0 ops).fixup).filterMap AssemblerFixup.pointerPositionOf ∧
    ((FinalizeInstructions (runEmit b0 ops) dest).1.2).length
      = countEmitObjects ops ∧
    (∀ i, 0 ≤ i → i < Size (runEmit b0 ops) →
       (FinalizeInstructions (runEmit b0 ops) dest).1.1.bytes i
         = (runEmit b0 ops).data i) ∧
    (FinalizeInstructions (runEmit b0 ops) dest).1.1.patched
      = (((runEmit b0 ops).fixup).filterMap AssemblerFixup.patchOf).reverse
          ++ dest.patched := by
  obtain ⟨nf, h1, h2, h3, h4⟩ := runEmit_fixup_shape b0 ops
  rw [hfix, List.append_nil] at h1
  rw [hpo] at h4
  have hclean : ∀ f ∈ (runEmit b0 ops).fixup, f.IsPointerOffset = true := by
    rw [h1]; exact h2
  obtain ⟨p1, p2, p3, p4⟩ := processFixups_clean (runEmit b0 ops).fixup
    (dest.CopyFrom 0
      { size := Size (runEmit b0 ops), bytes := (runEmit b0 ops).data,
        patched := [] })
    (runEmit b0 ops).pointer_offsets hclean
  refine ⟨?_, ?_, ?_, ?_, ?_⟩
  · unfold CountPointerOffsets
    rw [h1, List.countP_eq_length.mpr h2, h3]
  · show (ProcessFixups (runEmit b0 ops).fixup _ _).2 = _
    rw [p1, h4, List.nil_append]
  · show ((ProcessFixups (runEmit b0 ops).fixup _ _).2).length = _
    rw [p1, h4, List.nil_append, filterMap_pointerPositionOf_length _ hclean,
      h1, h3]
  · intro i h0i his
    show (ProcessFixups (runEmit b0 ops).fixup _ _).1.bytes i = _
    rw [p2]
    simp only [MemoryRegion.CopyFrom, zero_add]
    rw [if_pos (And.intro h0i his), sub_zero]
  · show (ProcessFixups (runEmit b0 ops).fixup _ _).1.patched = _
    rw [p4]
    rfl

/-- Closed witness for `finalize_replays_each_fixup_once`: two reference
slots emitted around a raw byte pair record exactly two pointer
offsets. -/
theorem finalize_replays_each_fixup_once_witness :
    (AssemblerBuffer.mkInitial 0 (fun _ => 0)).fixup = [] ∧
    (AssemblerBuffer.mkInitial 0 (fun _ => 0)).pointer_offsets = [] ∧
    (CountPointerOffsets (runEmit (AssemblerBuffer.mkInitial 0 (fun _ => 0))
        [EmitOp.object Obj.null, EmitOp.raw [1, 2], EmitOp.object (Obj.other 3)])
      = countEmitObjects
          [EmitOp.object Obj.null, EmitOp.raw [1, 2], EmitOp.object (Obj.other 3)] ∧
    (FinalizeInstructions (runEmit (AssemblerBuffer.mkInitial 0 (fun _ => 0))
        [EmitOp.object Obj.null, EmitOp.raw [1, 2], EmitOp.object (Obj.other 3)])
        ⟨64, fun _ => 0, []⟩).1.2
      = ((runEmit (AssemblerBuffer.mkInitial 0 (fun _ => 0))
          [EmitOp.object Obj.null, EmitOp.raw [1, 2],
           EmitOp.object (Obj.other 3)]).fixup).filterMap
          AssemblerFixup.pointerPositionOf ∧
    ((FinalizeInstructions (runEmit (AssemblerBuffer.mkInitial 0 (fun _ => 0))
        [EmitOp.object Obj.null, EmitOp.raw [1, 2], EmitOp.object (Obj.other 3)])
        ⟨64, fun _ => 0, []⟩).1.2).length
      = countEmitObjects
          [EmitOp.object Obj.null, EmitOp.raw [1, 2], EmitOp.object (Obj.other 3)] ∧
    (∀ i, 0 ≤ i →
       i < Size (runEmit (AssemblerBuffer.mkInitial 0 (fun _ => 0))
         [EmitOp.object Obj.null, EmitOp.raw [1, 2], EmitOp.object (Obj.other 3)]) →
       (FinalizeInstructions (runEmit (AssemblerBuffer.mkInitial 0 (fun _ => 0))
           [EmitOp.object Obj.null, EmitOp.raw [1, 2], EmitOp.object (Obj.other 3)])
           ⟨64, fun _ => 0, []⟩).1.1.bytes i
         = (runEmit (AssemblerBuffer.mkInitial 0 (fun _ => 0))
             [EmitOp.object Obj.null, EmitOp.raw [1, 2],
              EmitOp.object (Obj.other 3)]).data i) ∧
    (FinalizeInstructions (runEmit (AssemblerBuffer.mkInitial 0 (fun _ => 0))
        [EmitOp.object Obj.null, EmitOp.raw [1, 2], EmitOp.object (Obj.other 3)])
        ⟨64, fun _ => 0, []⟩).1.1.patched
      = (((runEmit (AssemblerBuffer.mkInitial 0 (fun _ => 0))
          [EmitOp.object Obj.null, EmitOp.raw [1, 2],
           EmitOp.object (Obj.other 3)]).fixup).filterMap
          AssemblerFixup.patchOf).reverse ++ (⟨64, fun _ => 0, []⟩ :
            MemoryRegion).patched) :=
  ⟨rfl, rfl,
   finalize_replays_each_fixup_once (AssemblerBuffer.mkInitial 0 (fun _ => 0))
     [EmitOp.object Obj.null, EmitOp.raw [1, 2], EmitOp.object (Obj.other 3)]
     ⟨64, fun _ => 0, []⟩ rfl rfl⟩

/-- Closed witness for `hashcode_tiering`: an immediate hashes to its
raw word, a null tagged reference to the fixed sentinel. -/
theorem hashcode_tiering_witness :
    ObjIndexPair.Hashcode
      ⟨EntryType.kImmediate, Patchability.kNotPatchable, Obj.null, none, 7⟩ = 7 ∧
    ObjIndexPair.Hashcode
      ⟨EntryType.kTaggedObject, Patchability.kNotPatchable, Obj.null, none, 0⟩
      = 2011 :=
  ⟨hashcode_tiering.1 Patchability.kNotPatchable Obj.null none 7,
   hashcode_tiering.2.2.2.1 Patchability.kNotPatchable none 0⟩

/-- Closed witness for `reset_null_equivalence_guard`: a pool holding a
tagged entry whose equivalence handle is `NULL` makes `Reset` hit the
null dereference, matching the right-hand side of the equivalence. -/
theorem reset_null_equivalence_guard_witness :
    Reset ⟨[⟨EntryType.kTaggedObject, Patchability.kNotPatchable,
             Obj.null, none, 0⟩], []⟩
      = Except.error ResetError.nullEquivalenceDeref ∧
    ((∃ w', Reset ⟨[⟨EntryType.kTaggedObject, Patchability.kNotPatchable,
             Obj.null, none, 0⟩], []⟩ = Except.ok w') ↔
      ∀ e ∈ (⟨[⟨EntryType.kTaggedObject, Patchability.kNotPatchable,
             Obj.null, none, 0⟩], []⟩ : ObjectPoolWrapper).object_pool,
        e.type = EntryType.kTaggedObject → e.equivalence ≠ none) :=
  ⟨rfl, reset_null_equivalence_guard
     ⟨[⟨EntryType.kTaggedObject, Patchability.kNotPatchable,
        Obj.null, none, 0⟩], []⟩⟩

end AssemblerSpec
